import Mathlib

/-!
# The `exchange` input plugin (`plugins/inputs/exchange/exchange.go`)

A shallow embedding of the plugin and of the parts of the Go standard library it
calls, followed by theorems about request construction, response handling and the
field-key transform.

Go strings are byte sequences; they are modelled as lists of bytes.  The external
collaborators (HTTP transport, parser constructor, parser, accumulator) are
modelled as data handed to the functions: the transport is a function from the
request to a response or an error, the accumulator is the log of the points added
to it, and closing the response body is counted.
-/

namespace ExchangePlugin

/-! ## Go strings -/

/-- One byte of a Go string. -/
abbrev Byte := Fin 256

/-- Go `string`: an immutable sequence of bytes. -/
abbrev GoString := List Byte

/-- UTF-8 encoding of one character, as natural numbers. -/
def utf8Bytes (c : Char) : List Nat :=
  let n := c.toNat
  if n < 128 then [n]
  else if n < 2048 then [192 + n / 64, 128 + n % 64]
  else if n < 65536 then [224 + n / 4096, 128 + n / 64 % 64, 128 + n % 64]
  else [240 + n / 262144, 128 + n / 4096 % 64, 128 + n / 64 % 64, 128 + n % 64]

/-- Go string literal: the UTF-8 bytes of the text. -/
def str (s : String) : GoString :=
  (s.data.flatMap utf8Bytes).map (fun n => Fin.ofNat n)

/-- Byte of an ASCII character constant such as `'%'`. -/
def chr (c : Char) : Byte := Fin.ofNat c.toNat

/-! ## Package `strings` -/

/-- Model of `strings.HasPrefix(s, prefix)`. -/
def HasPrefix : GoString → GoString → Bool
  | _, [] => true
  | [], _ :: _ => false
  | c :: cs, p :: ps => c == p && HasPrefix cs ps

/-- Least `i` such that `substr` is a prefix of `s[i:]`, if there is one. -/
def indexNat (substr : GoString) : GoString → Option Nat
  | [] => if substr = [] then some 0 else none
  | c :: cs =>
    if HasPrefix (c :: cs) substr then some 0
    else (indexNat substr cs).map (· + 1)

/-- Model of `strings.Index(s, substr)`: index of the first instance of `substr` in `s`,
or `-1` if `substr` is not present. -/
def Index (s substr : GoString) : Int :=
  match indexNat substr s with
  | some i => (i : Int)
  | none => -1

/-- Model of `strings.Contains(s, substr)`, which is `Index(s, substr) >= 0`. -/
def Contains (s substr : GoString) : Bool :=
  decide (Index s substr ≥ 0)

/-- Left-to-right replacement scan of `strings.Replace` for a non-empty `old`.
`limit` is the number of replacements still allowed (`none`: no limit) and `skip`
the number of bytes of the instance just replaced that are still to be passed
over, so that instances do not overlap. -/
def replaceScan (old new : GoString) : Option Nat → Nat → GoString → GoString
  | _, _, [] => []
  | limit, skip + 1, _ :: cs => replaceScan old new limit skip cs
  | limit, 0, c :: cs =>
    if limit ≠ some 0 ∧ HasPrefix (c :: cs) old then
      new ++ replaceScan old new (limit.map Nat.pred) (old.length - 1) cs
    else
      c :: replaceScan old new limit 0 cs

/-- Model of `strings.Replace(s, old, new, n)`: a copy of `s` with the first `n`
non-overlapping instances of `old` replaced by `new`; if `n < 0` there is no limit.
The case of an empty `old` (insertion at every rune boundary) is outside the
model: the plugin only passes the constant `quotes_`. -/
def Replace (s old new : GoString) (n : Int) : GoString :=
  if old = new ∨ n = 0 ∨ old = [] then s
  else replaceScan old new (if n < 0 then none else some n.toNat) 0 s

/-- Model of `strings.Join(elems, sep)`: the first element, then for each further
element the separator and the element, written to a builder. -/
def Join (elems : List GoString) (sep : GoString) : GoString :=
  match elems with
  | [] => []
  | [x] => x
  | x :: rest => rest.foldl (fun b s => b ++ sep ++ s) x

/-- Model of `strings.Cut(s, sep)`: the text before and after the first instance
of `sep`, and whether it was found. -/
def Cut (s sep : GoString) : GoString × GoString × Bool :=
  match indexNat sep s with
  | some i => (s.take i, s.drop (i + sep.length), true)
  | none => (s, [], false)

/-- Byte-wise lexicographic `a < b` on Go strings. -/
def strLess : GoString → GoString → Bool
  | _, [] => false
  | [], _ :: _ => true
  | a :: as, b :: bs => a.val < b.val || (a == b && strLess as bs)

/-! ## Errors -/

/-- Go error values: a plain message, or a message wrapping another error (`%w`). -/
inductive GoError where
  | errorString (s : GoString)
  | wrapError (msg : GoString) (err : GoError)
  deriving DecidableEq

/-- The `Error()` method. -/
def GoError.Error : GoError → GoString
  | .errorString s => s
  | .wrapError msg _ => msg

/-- The `Unwrap()` method (`nil` for a plain error). -/
def GoError.Unwrap : GoError → Option GoError
  | .errorString _ => none
  | .wrapError _ err => some err

/-- Whether `err` wraps `target`: `target` is reached from `err` by one or more
`Unwrap` steps. -/
def GoError.Wraps : GoError → GoError → Bool
  | .errorString _, _ => false
  | .wrapError _ inner, target => decide (inner = target) || GoError.Wraps inner target

/-! ## Package `net/url` -/

/-- Model of `shouldEscape(c, encodeQueryComponent)`: everything except the unreserved
characters (letters, digits, `-`, `_`, `.`, `~`) is escaped. -/
def shouldEscape (c : Byte) : Bool :=
  if (97 ≤ c.val ∧ c.val ≤ 122) ∨ (65 ≤ c.val ∧ c.val ≤ 90) ∨ (48 ≤ c.val ∧ c.val ≤ 57) then false
  else if c = chr '-' ∨ c = chr '_' ∨ c = chr '.' ∨ c = chr '~' then false
  else true

/-- The digit `"0123456789ABCDEF"[n]`. -/
def upperhex (n : Nat) : Byte :=
  if n < 10 then Fin.ofNat (48 + n) else Fin.ofNat (55 + n)

/-- Escaped form of one byte in a query component. -/
def escapeByte (c : Byte) : GoString :=
  if shouldEscape c then
    if c = chr ' ' then [chr '+']
    else [chr '%', upperhex (c.val / 16), upperhex (c.val % 16)]
  else [c]

/-- Model of `url.QueryEscape(s)`. -/
def QueryEscape (s : GoString) : GoString :=
  s.flatMap escapeByte

/-- Go `url.Values` (`map[string][]string`) as an association list with distinct keys. -/
abbrev Values := List (GoString × List GoString)

/-- The map lookup `v[key]` (`nil` when the key is absent). -/
def Values.lookup (v : Values) (key : GoString) : List GoString :=
  match v with
  | [] => []
  | (k, vs) :: rest => if k = key then vs else Values.lookup rest key

/-- Model of `Values.Add(key, value)`: `v[key] = append(v[key], value)`. -/
def Values.Add (v : Values) (key value : GoString) : Values :=
  match v with
  | [] => [(key, [value])]
  | (k, vs) :: rest =>
    if k = key then (k, vs ++ [value]) :: rest else (k, vs) :: Values.Add rest key value

/-- Model of `Values.Get(key)`: the first value of the key, or the empty string. -/
def Values.Get (v : Values) (key : GoString) : GoString :=
  match Values.lookup v key with
  | [] => []
  | x :: _ => x

/-- Insertion of a key into a sorted list of keys. -/
def insertKey (k : GoString) : List GoString → List GoString
  | [] => [k]
  | x :: xs => if strLess x k then x :: insertKey k xs else k :: x :: xs

/-- Sorted list of keys (`slices.Sort(keys)`). -/
def sortKeys : List GoString → List GoString
  | [] => []
  | k :: ks => insertKey k (sortKeys ks)

/-- Model of `Values.Encode()`: the values in URL-encoded form `bar=baz&foo=quux`,
sorted by key. -/
def Values.Encode (v : Values) : GoString :=
  (sortKeys (v.map Prod.fst)).foldl
    (fun buf k =>
      (Values.lookup v k).foldl
        (fun buf val =>
          (if buf.length > 0 then buf ++ [chr '&'] else buf)
            ++ QueryEscape k ++ [chr '='] ++ QueryEscape val)
        buf)
    []

/-- The fields of `url.URL` that the plugin uses. -/
structure URL where
  Scheme : GoString
  Host : GoString
  Path : GoString
  RawQuery : GoString
  deriving DecidableEq

/-- Model of `URL.String()` for a URL with scheme, host, a path that needs no escaping,
and a query: `scheme://host/path?query`. -/
def URL.String (u : URL) : GoString :=
  (if u.Scheme ≠ [] then u.Scheme ++ [chr ':'] else [])
    ++ (if u.Scheme ≠ [] ∨ u.Host ≠ [] then
          (if u.Host ≠ [] ∨ u.Path ≠ [] then str "//" else []) ++ u.Host
        else [])
    ++ (if u.Path ≠ [] ∧ u.Path.head? ≠ some (chr '/') ∧ u.Host ≠ [] then [chr '/'] else [])
    ++ u.Path
    ++ (if u.RawQuery ≠ [] then [chr '?'] ++ u.RawQuery else [])

/-- Model of `ishex(c)`. -/
def ishex (c : Byte) : Bool :=
  (48 ≤ c.val && c.val ≤ 57) || (97 ≤ c.val && c.val ≤ 102) || (65 ≤ c.val && c.val ≤ 70)

/-- Model of `unhex(c)`. -/
def unhex (c : Byte) : Nat :=
  if 48 ≤ c.val ∧ c.val ≤ 57 then c.val - 48
  else if 97 ≤ c.val ∧ c.val ≤ 102 then c.val - 97 + 10
  else if 65 ≤ c.val ∧ c.val ≤ 70 then c.val - 65 + 10
  else 0

/-- Model of `url.QueryUnescape(s)`: `%XY` becomes the byte `XY`, `+` becomes a space;
`none` stands for the `EscapeError` of a malformed `%` sequence. -/
def QueryUnescape : GoString → Option GoString
  | [] => some []
  | c :: rest =>
    if c = chr '%' then
      match rest with
      | h :: l :: rest2 =>
        if ishex h && ishex l then
          (QueryUnescape rest2).map (fun t => Fin.ofNat (unhex h * 16 + unhex l) :: t)
        else none
      | _ => none
    else if c = chr '+' then (QueryUnescape rest).map (fun t => chr ' ' :: t)
    else (QueryUnescape rest).map (fun t => c :: t)

/-- The `&`-separated segments of a query, in order. -/
def splitAmp : GoString → List GoString
  | [] => [[]]
  | c :: cs =>
    if c = chr '&' then [] :: splitAmp cs
    else
      match splitAmp cs with
      | seg :: segs => (c :: seg) :: segs
      | [] => [[c]]

/-- One round of the loop of `parseQuery`: a segment with a semicolon, an empty
segment, or one whose key or value does not unescape, is skipped; otherwise the
value is appended to the values of the key. -/
def parseSegment (m : Values) (seg : GoString) : Values :=
  if Contains seg (str ";") then m
  else if seg = [] then m
  else
    match Cut seg (str "=") with
    | (key, value, _) =>
      match QueryUnescape key with
      | none => m
      | some k =>
        match QueryUnescape value with
        | none => m
        | some v => Values.Add m k v

/-- Model of `URL.Query()`, that is `url.ParseQuery(RawQuery)` with its error dropped. -/
def parseQuery (query : GoString) : Values :=
  (splitAmp query).foldl parseSegment []

/-- The raw query that `url.Parse` finds in a URL string: the fragment after `#` is
cut off, and the query is what follows the first `?`. -/
def rawQueryOf (rawURL : GoString) : GoString :=
  (Cut (Cut rawURL (str "#")).1 (str "?")).2.1

/-! ## Package `net/http` -/

/-- Go `http.Header` as an association list from canonical keys to values. -/
abbrev Header := List (GoString × List GoString)

/-- Model of `validHeaderFieldByte(c)`: token characters of RFC 7230. -/
def validHeaderFieldByte (c : Byte) : Bool :=
  (97 ≤ c.val && c.val ≤ 122) || (65 ≤ c.val && c.val ≤ 90) || (48 ≤ c.val && c.val ≤ 57)
    || (str "!#$%&'*+-.^_|~" ++ [Fin.ofNat 96]).contains c

/-- The rewriting loop of `canonicalMIMEHeaderKey`: the first letter and every letter
after a hyphen in upper case, the other letters in lower case. -/
def canonicalLoop : Bool → GoString → GoString
  | _, [] => []
  | upper, c :: cs =>
    let c2 : Byte :=
      if upper ∧ 97 ≤ c.val ∧ c.val ≤ 122 then Fin.ofNat (c.val - 32)
      else if ¬upper ∧ 65 ≤ c.val ∧ c.val ≤ 90 then Fin.ofNat (c.val + 32)
      else c
    c2 :: canonicalLoop (c2 = chr '-') cs

/-- Model of `textproto.CanonicalMIMEHeaderKey(s)`: a key with a byte that is not
allowed in a header field name is returned unchanged. -/
def CanonicalMIMEHeaderKey (s : GoString) : GoString :=
  if s.all validHeaderFieldByte then canonicalLoop true s else s

/-- Model of `Header.Set(key, value)`: the values of the canonical key are replaced
by the single value. -/
def Header.Set (h : Header) (key value : GoString) : Header :=
  (CanonicalMIMEHeaderKey key, [value]) ::
    h.filter (fun kv => kv.1 ≠ CanonicalMIMEHeaderKey key)

/-- Model of `Header.Get(key)`: the first value of the canonical key, or `""`. -/
def Header.Get (h : Header) (key : GoString) : GoString :=
  Values.Get h (CanonicalMIMEHeaderKey key)

/-- The parts of `http.Request` that the plugin sets: method, URL (in its string
form) and header. -/
structure Request where
  Method : GoString
  URL : GoString
  Header : Header
  deriving DecidableEq

/-- Model of `stringContainsCTLByte(s)`: a byte below `0x20` or equal to `0x7f`. -/
def stringContainsCTLByte (s : GoString) : Bool :=
  s.any (fun b => b.val < 32 || b.val = 127)

/-- Model of `http.NewRequest(method, url, nil)`: an empty method stands for `GET`, a
method that is not a token is refused, and the URL is parsed.  `url.Parse` rejects a
string with a control byte; its other errors cannot occur for a string of the form
`https://host/path?query` with an escaped query. -/
def NewRequest (method url : GoString) : Except GoError Request :=
  let method := if method = [] then str "GET" else method
  if ¬ method.all validHeaderFieldByte then
    .error (.errorString (str "net/http: invalid method " ++ method))
  else if stringContainsCTLByte url then
    .error (.wrapError (str "parse " ++ url ++ str ": net/url: invalid control character in URL")
      (.errorString (str "net/url: invalid control character in URL")))
  else
    .ok { Method := method, URL := url, Header := [] }

/-- The parts of `http.Response` that the plugin reads.  `Body` is what
`ioutil.ReadAll(res.Body)` yields: the bytes, or a read error. -/
structure Response where
  StatusCode : Int
  Status : GoString
  Body : Except GoError GoString

/-! ## External collaborators -/

/-- One field of a parsed metric (`telegraf.Field`). -/
structure Field (V : Type) where
  Key : GoString
  Value : V
  deriving DecidableEq

/-- A parsed metric (`telegraf.Metric`): its name and its fields in the order of
`FieldList()`. -/
structure Metric (V : Type) where
  Name : GoString
  FieldList : List (Field V)
  deriving DecidableEq

/-- A parser (`telegraf.Parser`): its `Parse` method. -/
structure Parser (V : Type) where
  Parse : GoString → Except GoError (List (Metric V))

/-- One call `acc.AddFields(measurement, fields, tags)` as seen by the accumulator;
`tags = none` is the `nil` map. -/
structure Point (V : Type) where
  measurement : GoString
  fields : List (GoString × V)
  tags : Option (List (GoString × GoString))
  deriving DecidableEq

/-- What a call of the plugin can change outside the plugin: the requests handed to
the HTTP transport, the number of `Close` calls on the response body, and the
points added to the accumulator, each in order. -/
structure World (V : Type) where
  sent : List Request
  closes : Nat
  writes : List (Point V)
  deriving DecidableEq

/-! ## The plugin -/

/-- The constant `currencyApiEndpoint`. -/
def currencyApiEndpoint : GoString := str "https://api.apilayer.com"

/-- The constant `currencyApiResource`. -/
def currencyApiResource : GoString := str "/currency_data/live"

/-- The value of `url.ParseRequestURI(currencyApiEndpoint)`: scheme `https`, host
`api.apilayer.com`, empty path and query. -/
def endpointURL : URL :=
  { Scheme := str "https", Host := str "api.apilayer.com", Path := [], RawQuery := [] }

/-- The struct `Exchange`.  `parserFunc` is the outcome of calling the parser
constructor: a fresh parser or an error. -/
structure Exchange (V : Type) where
  APIKey : GoString
  BaseCurrency : GoString
  TargetCurrencies : List GoString
  parserFunc : Except GoError (Parser V)
  fullApiLink : GoString

variable {V : Type}

/-- The method `Init`, with the receiver and the world it leaves behind. -/
def Init (e : Exchange V) (w : World V) : Option GoError × Exchange V × World V :=
  if e.APIKey = [] then
    (some (.errorString (str "'api_token' cannot be blank")), e, w)
  else if e.BaseCurrency = [] then
    (some (.errorString (str "'base_currency' cannot be blank")), e, w)
  else
    (none, e, w)

/-- The call `fmt.Errorf("[url=%s]: %w", link, err)`. -/
def errorfUrl (link : GoString) (err : GoError) : GoError :=
  .wrapError (str "[url=" ++ link ++ str "]: " ++ err.Error) err

/-- The method `prepareHttpClient`: the receiver with `fullApiLink` set, and the
request or the error of `http.NewRequest`. -/
def prepareHttpClient (e : Exchange V) : Exchange V × Except GoError Request :=
  let params : Values := []
  let params := params.Add (str "source") e.BaseCurrency
  let params := params.Add (str "currencies") (Join e.TargetCurrencies (str ","))
  let u := endpointURL
  let u := { u with Path := currencyApiResource }
  let u := { u with RawQuery := params.Encode }
  let e := { e with fullApiLink := u.String }
  match NewRequest (str "GET") e.fullApiLink with
  | .error err => (e, .error err)
  | .ok req => (e, .ok { req with Header := req.Header.Set (str "apikey") e.APIKey })

/-- The method `makeApiRequest`; `transport` is `client.Do`. -/
def makeApiRequest (transport : Request → Except GoError Response) (e : Exchange V)
    (w : World V) : Exchange V × World V × Except GoError Response :=
  match prepareHttpClient e with
  | (e, .error err) => (e, w, .error err)
  | (e, .ok req) =>
    let w := { w with sent := w.sent ++ [req] }
    match transport req with
    | .error err => (e, w, .error err)
    | .ok res =>
      if res.StatusCode ≠ 200 then (e, w, .error (.errorString res.Status))
      else (e, w, .ok res)

/-- The body of the inner loop of `parseResponse`: one field of one metric. -/
def emitField (w : World V) (field : Field V) : World V :=
  if Contains field.Key (str "quotes") then
    let newName := Replace field.Key (str "quotes_") (str "") (-1)
    { w with writes := w.writes ++ [{ measurement := newName, fields := [(newName, field.Value)], tags := none }] }
  else w

/-- The function `parseResponse`.  The deferred `res.Body.Close()` runs on every
return. -/
def parseResponse (res : Response) (e : Exchange V) (w : World V) :
    World V × Option GoError :=
  let close := fun (w : World V) => { w with closes := w.closes + 1 }
  match res.Body with
  | .error err => (close w, some err)
  | .ok body =>
    match e.parserFunc with
    | .error err => (close w, some err)
    | .ok parser =>
      match parser.Parse body with
      | .error err => (close w, some err)
      | .ok metrics =>
        let w := metrics.foldl (fun w metric => metric.FieldList.foldl emitField w) w
        (close w, none)

/-- The method `Gather`. -/
def Gather (transport : Request → Except GoError Response) (e : Exchange V)
    (w : World V) : Exchange V × World V × Option GoError :=
  match makeApiRequest transport e w with
  | (e, w, .error err) => (e, w, some (errorfUrl e.fullApiLink err))
  | (e, w, .ok res) =>
    match parseResponse res e w with
    | (w, some err) => (e, w, some (errorfUrl e.fullApiLink err))
    | (w, none) => (e, w, none)

/-! ## Definitions used in the statements -/

/-- Bytes that `QueryEscape` can write: unreserved bytes, `+` and `%`. -/
def escapedByte (c : Byte) : Bool :=
  !shouldEscape c || c == chr '+' || c == chr '%'

/-- Closed form of the URL string that `prepareHttpClient` builds. -/
def apiLink (base : GoString) (targets : List GoString) : GoString :=
  str "https://api.apilayer.com/currency_data/live?currencies="
    ++ QueryEscape (Join targets (str ",")) ++ str "&source=" ++ QueryEscape base

/-- A parser that yields one metric with the fields `quotes_USD=1.23` and `name=foo`. -/
def exampleParser : Parser String :=
  { Parse := fun _ =>
      .ok [{ Name := str "exchange",
             FieldList := [{ Key := str "quotes_USD", Value := "1.23" },
                           { Key := str "name", Value := "foo" }] }] }

/-- A parser whose `Parse` fails. -/
def failingParser : Parser String :=
  { Parse := fun _ => .error (.errorString (str "invalid character")) }

/-- A configuration with base `USD` and targets `EUR`, `GBP`. -/
def exampleConfig : Exchange String :=
  { APIKey := str "secret", BaseCurrency := str "USD",
    TargetCurrencies := [str "EUR", str "GBP"], parserFunc := .ok exampleParser,
    fullApiLink := [] }

/-- The world before the first call: nothing sent, closed or written. -/
def emptyWorld : World String := { sent := [], closes := 0, writes := [] }

/-- A response with status 200 and an empty body. -/
def okResponse : Response := { StatusCode := 200, Status := str "200 OK", Body := .ok [] }

/-- A response with status 404. -/
def notFoundResponse : Response :=
  { StatusCode := 404, Status := str "404 Not Found", Body := .ok [] }

/-- The point that `parseResponse` adds for a field whose key contains `quotes`. -/
def pointOf (field : Field V) : Point V :=
  { measurement := Replace field.Key (str "quotes_") (str "") (-1),
    fields := [(Replace field.Key (str "quotes_") (str "") (-1), field.Value)],
    tags := none }

/-- The writes the specification asks for: per metric, per field, one point for each
field whose key contains `quotes`. -/
def expectedWrites (metrics : List (Metric V)) : List (Point V) :=
  metrics.flatMap (fun metric =>
    (metric.FieldList.filter (fun field => Contains field.Key (str "quotes"))).map pointOf)

/-- A transport that answers every request with the given response. -/
def respondWith (res : Response) : Request → Except GoError Response :=
  fun _ => .ok res

/-- The request that `prepareHttpClient` builds for the example configuration. -/
def exampleRequest : Request :=
  { Method := str "GET",
    URL := str "https://api.apilayer.com/currency_data/live?currencies=EUR%2CGBP&source=USD",
    Header := [(str "Apikey", [str "secret"])] }

/-- The example configuration with a parser that fails. -/
def failingConfig : Exchange String :=
  { exampleConfig with parserFunc := .ok failingParser }

/-- The key with a leading `pre` stripped and the remainder left as it was, the way
the data model of the specification words the renaming (`strings.TrimPrefix`). -/
def stripPrefix (s pre : GoString) : GoString :=
  if HasPrefix s pre then s.drop pre.length else s

/-! ## Lemmas -/

/-- The parsed endpoint prints back as the constant it was parsed from. -/
theorem endpointURL_string : endpointURL.String = currencyApiEndpoint := by decide

theorem source_ne_currencies : str "source" ≠ str "currencies" := by decide

theorem encode_params (b j : GoString) :
    Values.Encode ((Values.Add [] (str "source") b).Add (str "currencies") j)
      = str "currencies=" ++ QueryEscape j ++ str "&source=" ++ QueryEscape b := by
  have h1 : sortKeys [str "source", str "currencies"] = [str "currencies", str "source"] := by
    decide
  have h2 : QueryEscape (str "currencies") = str "currencies" := by decide
  have h3 : QueryEscape (str "source") = str "source" := by decide
  have h4 : str "currencies" ≠ str "source" := by decide
  have h5 : str "currencies=" = str "currencies" ++ [chr '='] := by decide
  have h6 : str "&source=" = [chr '&'] ++ str "source" ++ [chr '='] := by decide
  have h7 : (str "currencies").length = 10 := by decide
  simp only [Values.Add, Values.Encode, source_ne_currencies, if_false, List.map, h1,
    List.foldl, Values.lookup, h4, if_true, h2, h3, h5, h6]
  simp [h7]

theorem upperhex_unreserved : ∀ n : Fin 16, shouldEscape (upperhex n.val) = false := by decide

theorem escapeByte_escaped (c : Byte) : ∀ x ∈ escapeByte c, escapedByte x = true := by
  intro x hx
  unfold escapeByte at hx
  split_ifs at hx with h1 h2
  · simp only [List.mem_singleton] at hx
    subst hx; decide
  · simp only [List.mem_cons, List.mem_singleton, List.not_mem_nil, or_false] at hx
    rcases hx with hx | hx | hx
    · subst hx; decide
    · have := upperhex_unreserved ⟨c.val / 16, by omega⟩
      simp only [escapedByte, hx, this]; rfl
    · have := upperhex_unreserved ⟨c.val % 16, by omega⟩
      simp only [escapedByte, hx, this]; rfl
  · simp only [List.mem_singleton] at hx
    subst hx
    simp only [Bool.not_eq_true] at h1
    simp [escapedByte, h1]

theorem queryEscape_escaped (s : GoString) : ∀ x ∈ QueryEscape s, escapedByte x = true := by
  intro x hx
  simp only [QueryEscape, List.mem_flatMap] at hx
  obtain ⟨c, -, hc⟩ := hx
  exact escapeByte_escaped c x hc

set_option maxRecDepth 100000 in
theorem escapedByte_facts : ∀ x : Byte, escapedByte x = true →
    ¬ (x.val < 32 ∨ x.val = 127) ∧ x ≠ chr '&' ∧ x ≠ chr '=' ∧ x ≠ chr ';' ∧ x ≠ chr '#'
      ∧ x ≠ chr '?' := by decide

theorem url_string_eq (q : GoString) :
    URL.String { endpointURL with Path := currencyApiResource, RawQuery := str "currencies=" ++ q }
      = str "https://api.apilayer.com/currency_data/live?currencies=" ++ q := by
  have h1 : str "https" ≠ [] := by decide
  have h2 : str "api.apilayer.com" ≠ [] := by decide
  have h3 : currencyApiResource ≠ [] := by decide
  have h4 : currencyApiResource.head? = some (chr '/') := by decide
  have h5 : str "currencies=" ++ q ≠ [] := by
    have h6 : str "currencies=" = chr 'c' :: str "urrencies=" := by decide
    rw [h6]; simp
  have h7 : str "https://api.apilayer.com/currency_data/live?currencies="
      = str "https" ++ [chr ':'] ++ str "//" ++ str "api.apilayer.com" ++ currencyApiResource
        ++ [chr '?'] ++ str "currencies=" := by decide
  simp only [URL.String, endpointURL, h1, h2, h3, h4, h5, h7, ne_eq, not_false_eq_true,
    if_true, true_or, or_true, not_true_eq_false, false_and, and_false, if_false,
    List.append_assoc, List.append_nil, true_and]

theorem noCTL_append (a b : GoString) :
    stringContainsCTLByte (a ++ b) = (stringContainsCTLByte a || stringContainsCTLByte b) := by
  simp [stringContainsCTLByte, List.any_append]

theorem queryEscape_noCTL (s : GoString) : stringContainsCTLByte (QueryEscape s) = false := by
  simp only [stringContainsCTLByte, List.any_eq_false]
  intro x hx
  have := (escapedByte_facts x (queryEscape_escaped s x hx)).1
  simpa using this

theorem apiLink_noCTL (base : GoString) (targets : List GoString) :
    stringContainsCTLByte (apiLink base targets) = false := by
  have h1 : stringContainsCTLByte (str "https://api.apilayer.com/currency_data/live?currencies=")
      = false := by decide
  have h2 : stringContainsCTLByte (str "&source=") = false := by decide
  simp [apiLink, noCTL_append, queryEscape_noCTL, h1, h2]

theorem prepareHttpClient_eq (e : Exchange V) :
    prepareHttpClient e =
      ({ e with fullApiLink := apiLink e.BaseCurrency e.TargetCurrencies },
       .ok { Method := str "GET", URL := apiLink e.BaseCurrency e.TargetCurrencies,
             Header := [(str "Apikey", [e.APIKey])] }) := by
  have hlink : URL.String
      { endpointURL with
        Path := currencyApiResource
        RawQuery := Values.Encode ((Values.Add [] (str "source") e.BaseCurrency).Add
          (str "currencies") (Join e.TargetCurrencies (str ","))) }
      = apiLink e.BaseCurrency e.TargetCurrencies := by
    rw [encode_params]
    simp only [List.append_assoc]
    rw [url_string_eq]
    simp [apiLink]
  have hm : (if str "GET" = [] then str "GET" else str "GET") = str "GET" := by decide
  have hv : (str "GET").all validHeaderFieldByte = true := by decide
  have hk : CanonicalMIMEHeaderKey (str "apikey") = str "Apikey" := by decide
  simp only [prepareHttpClient, hlink, NewRequest, hm, hv, not_true_eq_false, if_false,
    apiLink_noCTL, Header.Set, hk, List.filter_nil, Bool.false_eq_true]

theorem hex_roundtrip : ∀ n : Fin 16,
    ishex (upperhex n.val) = true ∧ unhex (upperhex n.val) = n.val := by decide

set_option maxRecDepth 100000 in
theorem unreserved_plain : ∀ c : Byte, shouldEscape c = false →
    c ≠ chr '%' ∧ c ≠ chr '+' := by decide

theorem queryUnescape_escapeByte (c : Byte) (t : GoString) :
    QueryUnescape (escapeByte c ++ t) = (QueryUnescape t).map (fun r => c :: r) := by
  unfold escapeByte
  split_ifs with h1 h2
  · subst h2
    have h3 : chr '+' ≠ chr '%' := by decide
    rw [QueryUnescape.eq_def]; simp [h3]
  · have hh := hex_roundtrip ⟨c.val / 16, by omega⟩
    have hl := hex_roundtrip ⟨c.val % 16, by omega⟩
    simp only at hh hl
    have hb : (Fin.ofNat (c.val / 16 * 16 + c.val % 16) : Byte) = c := by
      apply Fin.ext
      simp only [Fin.ofNat, Fin.val_mk]
      omega
    rw [QueryUnescape.eq_def]; simp [hh.1, hh.2, hl.1, hl.2, hb]
  · simp only [Bool.not_eq_true] at h1
    have := unreserved_plain c h1
    rw [QueryUnescape.eq_def]; simp [this.1, this.2]

theorem queryUnescape_queryEscape (s : GoString) : QueryUnescape (QueryEscape s) = some s := by
  induction s with
  | nil => simp [QueryEscape, QueryUnescape]
  | cons c s ih =>
    have : QueryEscape (c :: s) = escapeByte c ++ QueryEscape s := by
      simp [QueryEscape]
    rw [this, queryUnescape_escapeByte, ih]
    rfl

theorem foldl_sep (sep : GoString) (rest : List GoString) (x : GoString) :
    rest.foldl (fun b s => b ++ sep ++ s) x = x ++ rest.flatMap (fun s => sep ++ s) := by
  induction rest generalizing x with
  | nil => simp
  | cons y ys ih =>
    simp only [List.foldl_cons, List.flatMap_cons]
    rw [ih]
    simp [List.append_assoc]

theorem intercalate_cons (sep x : GoString) (rest : List GoString) :
    List.intercalate sep (x :: rest) = x ++ rest.flatMap (fun s => sep ++ s) := by
  induction rest generalizing x with
  | nil => simp [List.intercalate]
  | cons y ys ih =>
    have := ih y
    simp only [List.intercalate, List.intersperse, List.flatten, List.flatMap_cons] at this ⊢
    simp [this]

theorem join_eq_intercalate (elems : List GoString) (sep : GoString) :
    Join elems sep = List.intercalate sep elems := by
  match elems with
  | [] => simp [Join, List.intercalate]
  | [x] => simp [Join, List.intercalate]
  | x :: y :: rest => rw [intercalate_cons]; simp only [Join]; exact foldl_sep sep _ x

theorem indexNat_single_none (c : Byte) (a : GoString) (h : ∀ x ∈ a, x ≠ c) :
    indexNat [c] a = none := by
  induction a with
  | nil => simp [indexNat]
  | cons x xs ih =>
    have hx : x ≠ c := h x (List.mem_cons_self _ _)
    have := ih (fun y hy => h y (List.mem_cons_of_mem _ hy))
    simp [indexNat, HasPrefix, hx, this]

theorem indexNat_single_append (c : Byte) (a b : GoString) (h : ∀ x ∈ a, x ≠ c) :
    indexNat [c] (a ++ c :: b) = some a.length := by
  induction a with
  | nil => simp [indexNat, HasPrefix]
  | cons x xs ih =>
    have hx : x ≠ c := h x (List.mem_cons_self _ _)
    have := ih (fun y hy => h y (List.mem_cons_of_mem _ hy))
    simp [indexNat, HasPrefix, hx, this]

theorem cut_single_none (c : Byte) (a : GoString) (h : ∀ x ∈ a, x ≠ c) :
    Cut a [c] = (a, [], false) := by
  simp [Cut, indexNat_single_none c a h]

theorem cut_single_append (c : Byte) (a b : GoString) (h : ∀ x ∈ a, x ≠ c) :
    Cut (a ++ c :: b) [c] = (a, b, true) := by
  simp [Cut, indexNat_single_append c a b h]

theorem splitAmp_single (a : GoString) (h : ∀ x ∈ a, x ≠ chr '&') : splitAmp a = [a] := by
  induction a with
  | nil => simp [splitAmp]
  | cons x xs ih =>
    have hx : x ≠ chr '&' := h x (List.mem_cons_self _ _)
    have := ih (fun y hy => h y (List.mem_cons_of_mem _ hy))
    simp [splitAmp, hx, this]

theorem splitAmp_append (a b : GoString) (h : ∀ x ∈ a, x ≠ chr '&') :
    splitAmp (a ++ chr '&' :: b) = a :: splitAmp b := by
  induction a with
  | nil => simp [splitAmp]
  | cons x xs ih =>
    have hx : x ≠ chr '&' := h x (List.mem_cons_self _ _)
    have := ih (fun y hy => h y (List.mem_cons_of_mem _ hy))
    simp [splitAmp, hx, this]

theorem contains_single_false (c : Byte) (a : GoString) (h : ∀ x ∈ a, x ≠ c) :
    Contains a [c] = false := by
  simp [Contains, Index, indexNat_single_none c a h]

/-- Parsing one segment `key=value` whose key is plain and whose value is escaped. -/
theorem parseSegment_escaped (m : Values) (key v : GoString)
    (hk1 : ∀ x ∈ key, escapedByte x = true) (hk2 : QueryUnescape key = some key) :
    parseSegment m (key ++ chr '=' :: QueryEscape v) = Values.Add m key v := by
  have hsemi : ∀ x ∈ key ++ chr '=' :: QueryEscape v, x ≠ chr ';' := by
    intro x hx
    simp only [List.mem_append, List.mem_cons] at hx
    rcases hx with hx | hx | hx
    · exact (escapedByte_facts x (hk1 x hx)).2.2.2.1
    · subst hx; decide
    · exact (escapedByte_facts x (queryEscape_escaped v x hx)).2.2.2.1
  have heq : ∀ x ∈ key, x ≠ chr '=' := fun x hx => (escapedByte_facts x (hk1 x hx)).2.2.1
  have h1 : str ";" = [chr ';'] := by decide
  have h2 : str "=" = [chr '='] := by decide
  have hne : key ++ chr '=' :: QueryEscape v ≠ [] := by simp
  simp only [parseSegment, h1, h2, contains_single_false _ _ hsemi, hne, if_false,
    cut_single_append _ _ _ heq, hk2, queryUnescape_queryEscape, Bool.false_eq_true]

set_option maxRecDepth 100000 in
theorem rawQueryOf_apiLink (base : GoString) (targets : List GoString) :
    rawQueryOf (apiLink base targets)
      = str "currencies" ++ chr '=' :: QueryEscape (Join targets (str ","))
          ++ chr '&' :: (str "source" ++ chr '=' :: QueryEscape base) := by
  have hform : apiLink base targets
      = str "https://api.apilayer.com/currency_data/live" ++ chr '?' ::
          (str "currencies" ++ chr '=' :: QueryEscape (Join targets (str ","))
            ++ chr '&' :: (str "source" ++ chr '=' :: QueryEscape base)) := by
    have h1 : str "https://api.apilayer.com/currency_data/live?currencies="
        = str "https://api.apilayer.com/currency_data/live" ++ chr '?' ::
            (str "currencies" ++ [chr '=']) := by decide
    have h2 : str "&source=" = chr '&' :: (str "source" ++ [chr '=']) := by decide
    simp [apiLink, h1, h2]
  have hhash : ∀ x ∈ apiLink base targets, x ≠ chr '#' := by
    have h1 : ∀ x ∈ str "https://api.apilayer.com/currency_data/live?currencies=",
        x ≠ chr '#' := by decide
    have h2 : ∀ x ∈ str "&source=", x ≠ chr '#' := by decide
    intro x hx
    simp only [apiLink, List.mem_append] at hx
    rcases hx with ((hx | hx) | hx) | hx
    · exact h1 x hx
    · exact (escapedByte_facts x (queryEscape_escaped _ x hx)).2.2.2.2.1
    · exact h2 x hx
    · exact (escapedByte_facts x (queryEscape_escaped _ x hx)).2.2.2.2.1
  have hq : ∀ x ∈ str "https://api.apilayer.com/currency_data/live", x ≠ chr '?' := by
    decide
  have e1 : str "#" = [chr '#'] := by decide
  have e2 : str "?" = [chr '?'] := by decide
  rw [rawQueryOf, e1, e2, cut_single_none _ _ hhash]
  simp only
  rw [hform, cut_single_append _ _ _ hq]

set_option maxRecDepth 100000 in
theorem parseQuery_apiLink (base : GoString) (targets : List GoString) :
    parseQuery (rawQueryOf (apiLink base targets))
      = [(str "currencies", [Join targets (str ",")]), (str "source", [base])] := by
  have hc : ∀ x ∈ str "currencies", escapedByte x = true := by decide
  have hs : ∀ x ∈ str "source", escapedByte x = true := by decide
  have hc2 : QueryUnescape (str "currencies") = some (str "currencies") := by decide
  have hs2 : QueryUnescape (str "source") = some (str "source") := by decide
  have hamp : ∀ (key v : GoString), (∀ x ∈ key, escapedByte x = true) →
      ∀ x ∈ key ++ chr '=' :: QueryEscape v, x ≠ chr '&' := by
    intro key v hkey x hx
    simp only [List.mem_append, List.mem_cons] at hx
    rcases hx with hx | hx | hx
    · exact (escapedByte_facts x (hkey x hx)).2.1
    · subst hx; decide
    · exact (escapedByte_facts x (queryEscape_escaped v x hx)).2.1
  have hne : str "currencies" ≠ str "source" := by decide
  rw [rawQueryOf_apiLink, parseQuery, splitAmp_append _ _ (hamp _ _ hc),
    splitAmp_single _ (hamp _ _ hs)]
  simp only [List.foldl, parseSegment_escaped _ _ _ hc hc2, parseSegment_escaped _ _ _ hs hs2,
    Values.Add, hne, if_false]

theorem str_quotes_ : str "quotes_" = [113, 117, 111, 116, 101, 115, 95] := by decide

theorem str_empty : str "" = [] := by decide

theorem replace_eq_scan (k : GoString) :
    Replace k (str "quotes_") (str "") (-1) = replaceScan (str "quotes_") [] none 0 k := by
  have h1 : ¬ (str "quotes_" = str "" ∨ (-1 : Int) = 0 ∨ str "quotes_" = []) := by decide
  simp only [Replace, h1, if_false, str_empty]
  rfl

theorem hasPrefix_append_self (p s : GoString) : HasPrefix (p ++ s) p = true := by
  induction p with
  | nil => cases s <;> simp [HasPrefix]
  | cons x xs ih => simp [HasPrefix, ih]

theorem replaceScan_skip (old new a b : GoString) :
    replaceScan old new none a.length (a ++ b) = replaceScan old new none 0 b := by
  induction a with
  | nil => simp
  | cons x xs ih => simp [replaceScan, ih]

theorem contains_false_iff (s sub : GoString) :
    Contains s sub = false ↔ indexNat sub s = none := by
  unfold Contains Index
  cases indexNat sub s with
  | none => simp
  | some i => simp

theorem contains_true_of_hasPrefix (s sub : GoString) (h : HasPrefix s sub = true) :
    Contains s sub = true := by
  have : indexNat sub s = some 0 := by
    cases s with
    | nil =>
      cases sub with
      | nil => simp [indexNat]
      | cons p ps => simp [HasPrefix] at h
    | cons c cs => simp [indexNat, h]
  simp [Contains, Index, this]

theorem replace_nil : Replace [] (str "quotes_") (str "") (-1) = [] := by
  rw [replace_eq_scan]; rfl

theorem replace_head (b : GoString) :
    Replace (str "quotes_" ++ b) (str "quotes_") (str "") (-1)
      = Replace b (str "quotes_") (str "") (-1) := by
  rw [replace_eq_scan, replace_eq_scan]
  have hp := hasPrefix_append_self (str "quotes_") b
  have hs := replaceScan_skip (str "quotes_") [] [117, 111, 116, 101, 115, 95] b
  rw [str_quotes_] at hp ⊢
  simp only [List.cons_append, List.nil_append, List.length_cons, List.length_nil] at hp hs ⊢
  rw [replaceScan]
  simp only [hp, ne_eq, reduceCtorEq, not_false_eq_true, and_self, if_true, List.nil_append,
    List.length_cons, List.length_nil, Option.map_none']
  exact hs

theorem replace_cons (c : Byte) (s : GoString) (h : HasPrefix (c :: s) (str "quotes_") = false) :
    Replace (c :: s) (str "quotes_") (str "") (-1)
      = c :: Replace s (str "quotes_") (str "") (-1) := by
  rw [replace_eq_scan, replace_eq_scan, replaceScan]
  simp [h]

theorem replace_absent (k : GoString) (h : Contains k (str "quotes_") = false) :
    Replace k (str "quotes_") (str "") (-1) = k := by
  rw [contains_false_iff] at h
  induction k with
  | nil => exact replace_nil
  | cons c cs ih =>
    rw [indexNat] at h
    split_ifs at h with hp
    simp only [Option.map_eq_none'] at h
    simp only [Bool.not_eq_true] at hp
    rw [replace_cons c cs hp, ih h]

theorem emitField_eq (w : World V) (field : Field V) :
    emitField w field =
      { w with writes := w.writes ++
          ([field].filter (fun field => Contains field.Key (str "quotes"))).map pointOf } := by
  unfold emitField
  by_cases h : Contains field.Key (str "quotes") = true
  · simp [h, pointOf]
  · simp [h]

theorem foldl_emitField (fields : List (Field V)) (w : World V) :
    fields.foldl emitField w =
      { w with writes := w.writes ++
          (fields.filter (fun field => Contains field.Key (str "quotes"))).map pointOf } := by
  induction fields generalizing w with
  | nil => simp
  | cons f fs ih =>
    rw [List.foldl_cons, ih, emitField_eq]
    by_cases h : Contains f.Key (str "quotes") = true
    · simp [List.filter_cons, h]
    · simp [List.filter_cons, h]

theorem foldl_metrics (metrics : List (Metric V)) (w : World V) :
    metrics.foldl (fun w metric => metric.FieldList.foldl emitField w) w =
      { w with writes := w.writes ++ expectedWrites metrics } := by
  induction metrics generalizing w with
  | nil => simp [expectedWrites]
  | cons m ms ih =>
    rw [List.foldl_cons, ih, foldl_emitField]
    simp [expectedWrites, List.append_assoc]

/-- C1: after a successful parse, the sink receives, in the parser's metric order and
then field order, exactly one point per field whose key contains `quotes`, named after
the transformed key, with the single field transformed key -> original value and no
tags; the other fields give no write. -/
theorem parseResponse_writes (res : Response) (e : Exchange V) (w : World V)
    (body : GoString) (parser : Parser V) (metrics : List (Metric V))
    (hbody : res.Body = .ok body) (hparser : e.parserFunc = .ok parser)
    (hparse : parser.Parse body = .ok metrics) :
    (parseResponse res e w).1.writes = w.writes ++ expectedWrites metrics
      ∧ (parseResponse res e w).2 = none := by
  simp only [parseResponse, hbody, hparser, hparse, foldl_metrics, and_self]

/-- C1, the example of the specification: fields `quotes_USD=1.23` and `name=foo` give
exactly one write, point `USD` with field `USD=1.23`. -/
theorem parseResponse_writes_witness :
    okResponse.Body = .ok [] ∧ exampleConfig.parserFunc = .ok exampleParser
      ∧ exampleParser.Parse [] = .ok
          [{ Name := str "exchange",
             FieldList := [{ Key := str "quotes_USD", Value := "1.23" },
                           { Key := str "name", Value := "foo" }] }]
      ∧ (parseResponse okResponse exampleConfig emptyWorld).1.writes
          = [{ measurement := str "USD", fields := [(str "USD", "1.23")], tags := none }] :=
  ⟨rfl, rfl, rfl,
    (parseResponse_writes okResponse exampleConfig emptyWorld [] exampleParser _ rfl rfl rfl).1.trans
      (by decide)⟩

/-- C2: `Init` returns an error exactly when the API key or the base currency is
empty, returns `nil` exactly when both are non-empty, and leaves the receiver and the
world as they were: no URL is built and no request is sent. -/
theorem init_error_iff (e : Exchange V) (w : World V) :
    ((Init e w).1.isSome = true ↔ (e.APIKey = [] ∨ e.BaseCurrency = []))
      ∧ ((Init e w).1 = none ↔ (e.APIKey ≠ [] ∧ e.BaseCurrency ≠ []))
      ∧ (Init e w).2 = (e, w) := by
  unfold Init
  by_cases h1 : e.APIKey = []
  · simp [h1]
  · by_cases h2 : e.BaseCurrency = []
    · simp [h1, h2]
    · simp [h1, h2]

theorem exampleRequest_built : (prepareHttpClient exampleConfig).2 = .ok exampleRequest := by
  rfl

/-- C3: the `currencies` query parameter of the request built by `prepareHttpClient`,
read back from the request URL, is the comma-join of the target list in input order
(no deduplication, no sorting), for every base currency and every target list. -/
theorem currencies_param_is_join (e : Exchange V) :
    ∃ req, (prepareHttpClient e).2 = .ok req
      ∧ Values.Get (parseQuery (rawQueryOf req.URL)) (str "currencies")
          = List.intercalate (str ",") e.TargetCurrencies
      ∧ Join e.TargetCurrencies (str ",") = List.intercalate (str ",") e.TargetCurrencies := by
  refine ⟨_, by rw [prepareHttpClient_eq], ?_, join_eq_intercalate _ _⟩
  simp only [parseQuery_apiLink, Values.Get, Values.lookup, if_true, join_eq_intercalate]

/-- C4: when the transport answers with a status other than 200, `Gather` returns an
error whose message carries the request URL and the status line of the response (and
which wraps the error made from the status line), and nothing is written to the sink. -/
theorem gather_non200 (transport : Request → Except GoError Response) (e : Exchange V)
    (w : World V) (req : Request) (res : Response)
    (hreq : (prepareHttpClient e).2 = .ok req) (hdo : transport req = .ok res)
    (hstatus : res.StatusCode ≠ 200) :
    (Gather transport e w).2.2
        = some (.wrapError (str "[url=" ++ req.URL ++ str "]: " ++ res.Status)
            (.errorString res.Status))
      ∧ (Gather transport e w).2.1.writes = w.writes := by
  rw [prepareHttpClient_eq] at hreq
  simp only [Except.ok.injEq] at hreq
  subst hreq
  simp only [Gather, makeApiRequest, prepareHttpClient_eq, hdo, hstatus, ne_eq,
    not_false_eq_true, if_true, errorfUrl, GoError.Error, and_self]

/-- C4 at the example configuration and a `404 Not Found` response. -/
theorem gather_non200_witness :
    (prepareHttpClient exampleConfig).2 = .ok exampleRequest
      ∧ respondWith notFoundResponse exampleRequest = .ok notFoundResponse
      ∧ notFoundResponse.StatusCode ≠ 200
      ∧ (Gather (respondWith notFoundResponse) exampleConfig emptyWorld).2.2
          = some (.wrapError
              (str "[url=https://api.apilayer.com/currency_data/live?currencies=EUR%2CGBP&source=USD]: 404 Not Found")
              (.errorString (str "404 Not Found")))
      ∧ (Gather (respondWith notFoundResponse) exampleConfig emptyWorld).2.1.writes = [] :=
  ⟨exampleRequest_built, rfl, by decide,
    (gather_non200 (respondWith notFoundResponse) exampleConfig emptyWorld exampleRequest
      notFoundResponse exampleRequest_built rfl (by decide)).1.trans (by decide),
    (gather_non200 (respondWith notFoundResponse) exampleConfig emptyWorld exampleRequest
      notFoundResponse exampleRequest_built rfl (by decide)).2⟩

/-- C5, counterexample: with a parser whose `Parse` fails with `invalid character`,
`parseResponse` returns that very error, which has nothing to unwrap and so does not
wrap the parser's error. -/
theorem parse_error_not_wrapped :
    failingParser.Parse [] = .error (.errorString (str "invalid character"))
      ∧ (parseResponse okResponse failingConfig emptyWorld).2
          = some (.errorString (str "invalid character"))
      ∧ ((parseResponse okResponse failingConfig emptyWorld).2.bind GoError.Unwrap) = none
      ∧ ((parseResponse okResponse failingConfig emptyWorld).2.map
            (fun err => GoError.Wraps err (.errorString (str "invalid character"))))
          = some false := by
  refine ⟨rfl, ?_, ?_, ?_⟩ <;> decide

/-- C5, amended: when the parser's `Parse` fails, `parseResponse` returns the parser's
error itself, unchanged, and writes nothing to the sink; `Gather` then returns an error
that wraps the parser's error and carries the URL, and the sink is still untouched. -/
theorem parse_failure_no_writes (res : Response) (e : Exchange V) (w : World V)
    (body : GoString) (parser : Parser V) (err : GoError)
    (hbody : res.Body = .ok body) (hparser : e.parserFunc = .ok parser)
    (hparse : parser.Parse body = .error err) :
    (parseResponse res e w).2 = some err
      ∧ (parseResponse res e w).1.writes = w.writes
      ∧ ∀ (transport : Request → Except GoError Response) (req : Request),
          (prepareHttpClient e).2 = .ok req → transport req = .ok res →
          res.StatusCode = 200 →
          (Gather transport e w).2.2
              = some (.wrapError (str "[url=" ++ req.URL ++ str "]: " ++ err.Error) err)
            ∧ ((Gather transport e w).2.2.bind GoError.Unwrap) = some err
            ∧ ((Gather transport e w).2.2.map (fun g => GoError.Wraps g err)) = some true
            ∧ (Gather transport e w).2.1.writes = w.writes := by
  refine ⟨?_, ?_, ?_⟩
  · simp only [parseResponse, hbody, hparser, hparse]
  · simp only [parseResponse, hbody, hparser, hparse]
  · intro transport req hreq hdo hstatus
    rw [prepareHttpClient_eq] at hreq
    simp only [Except.ok.injEq] at hreq
    subst hreq
    have hG : (Gather transport e w).2.2
          = some (.wrapError (str "[url=" ++ apiLink e.BaseCurrency e.TargetCurrencies
              ++ str "]: " ++ err.Error) err)
        ∧ (Gather transport e w).2.1.writes = w.writes := by
      simp only [Gather, makeApiRequest, prepareHttpClient_eq, hdo, hstatus, ne_eq,
        not_true_eq_false, if_false, parseResponse, hbody, hparser, hparse, errorfUrl,
        and_self]
    rw [hG.1]
    refine ⟨rfl, rfl, ?_, hG.2⟩
    simp only [Option.map_some', GoError.Wraps, decide_True, Bool.true_or]

/-- C5, amended, at the example configuration with a failing parser. -/
theorem parse_failure_no_writes_witness :
    okResponse.Body = .ok [] ∧ failingConfig.parserFunc = .ok failingParser
      ∧ failingParser.Parse [] = .error (.errorString (str "invalid character"))
      ∧ (parseResponse okResponse failingConfig emptyWorld).2
          = some (.errorString (str "invalid character"))
      ∧ (parseResponse okResponse failingConfig emptyWorld).1.writes = []
      ∧ (Gather (respondWith okResponse) failingConfig emptyWorld).2.2
          = some (.wrapError
              (str "[url=" ++ exampleRequest.URL ++ str "]: " ++ str "invalid character")
              (.errorString (str "invalid character")))
      ∧ ((Gather (respondWith okResponse) failingConfig emptyWorld).2.2.bind GoError.Unwrap)
          = some (.errorString (str "invalid character"))
      ∧ (Gather (respondWith okResponse) failingConfig emptyWorld).2.1.writes = [] :=
  ⟨rfl, rfl, rfl,
    (parse_failure_no_writes okResponse failingConfig emptyWorld [] failingParser
      (.errorString (str "invalid character")) rfl rfl rfl).1,
    (parse_failure_no_writes okResponse failingConfig emptyWorld [] failingParser
      (.errorString (str "invalid character")) rfl rfl rfl).2.1,
    ((parse_failure_no_writes okResponse failingConfig emptyWorld [] failingParser
      (.errorString (str "invalid character")) rfl rfl rfl).2.2
        (respondWith okResponse) exampleRequest rfl rfl rfl).1,
    ((parse_failure_no_writes okResponse failingConfig emptyWorld [] failingParser
      (.errorString (str "invalid character")) rfl rfl rfl).2.2
        (respondWith okResponse) exampleRequest rfl rfl rfl).2.1,
    ((parse_failure_no_writes okResponse failingConfig emptyWorld [] failingParser
      (.errorString (str "invalid character")) rfl rfl rfl).2.2
        (respondWith okResponse) exampleRequest rfl rfl rfl).2.2.2⟩

/-- C7, counterexample: for base `USD` and targets `EUR`, `GBP` the URL built is
`...live?currencies=EUR%2CGBP&source=USD`, not `...live?source=USD&currencies=EUR,GBP`. -/
theorem link_not_source_first :
    (prepareHttpClient exampleConfig).1.fullApiLink
        = str "https://api.apilayer.com/currency_data/live?currencies=EUR%2CGBP&source=USD"
      ∧ (prepareHttpClient exampleConfig).1.fullApiLink
        ≠ str "https://api.apilayer.com/currency_data/live?source=" ++ exampleConfig.BaseCurrency
            ++ str "&currencies=" ++ Join exampleConfig.TargetCurrencies (str ",") := by
  decide

/-- C7, amended: the URL built by `prepareHttpClient`, stored in `fullApiLink` and used
for the GET request, is the fixed host, the fixed path, then the `currencies` parameter
holding the query-escaped comma-join of the targets, then the `source` parameter holding
the query-escaped base currency. -/
theorem link_currencies_first (e : Exchange V) :
    (prepareHttpClient e).1.fullApiLink
        = currencyApiEndpoint ++ currencyApiResource ++ str "?currencies="
            ++ QueryEscape (Join e.TargetCurrencies (str ",")) ++ str "&source="
            ++ QueryEscape e.BaseCurrency
      ∧ ∃ req, (prepareHttpClient e).2 = .ok req ∧ req.Method = str "GET"
          ∧ req.URL = (prepareHttpClient e).1.fullApiLink := by
  have h : str "https://api.apilayer.com/currency_data/live?currencies="
      = currencyApiEndpoint ++ currencyApiResource ++ str "?currencies=" := by decide
  refine ⟨?_, _, by rw [prepareHttpClient_eq], rfl, by rw [prepareHttpClient_eq]⟩
  rw [prepareHttpClient_eq]
  simp only [apiLink, h]

/-- C8, failing input: the transport answers `404 Not Found`; `Gather` returns an error
and the response body has not been closed. -/
theorem gather_404_body_left_open :
    respondWith notFoundResponse exampleRequest = .ok notFoundResponse
      ∧ (Gather (respondWith notFoundResponse) exampleConfig emptyWorld).2.1.sent
          = [exampleRequest]
      ∧ (Gather (respondWith notFoundResponse) exampleConfig emptyWorld).2.2.isSome = true
      ∧ (Gather (respondWith notFoundResponse) exampleConfig emptyWorld).2.1.closes = 0 := by
  refine ⟨rfl, ?_, ?_, ?_⟩ <;> decide

/-- On a response with status 200 the body is closed exactly once, whatever reading,
parser construction and parsing do. -/
theorem status200_closes_once (transport : Request → Except GoError Response)
    (e : Exchange V) (w : World V) (req : Request) (res : Response)
    (hreq : (prepareHttpClient e).2 = .ok req) (hdo : transport req = .ok res)
    (hstatus : res.StatusCode = 200) :
    (Gather transport e w).2.1.closes = w.closes + 1 := by
  rw [prepareHttpClient_eq] at hreq
  simp only [Except.ok.injEq] at hreq
  subst hreq
  simp only [Gather, makeApiRequest, prepareHttpClient_eq, hdo, hstatus, ne_eq,
    not_true_eq_false, if_false, parseResponse]
  cases res.Body with
  | error err => simp
  | ok body =>
    cases e.parserFunc with
    | error err => simp
    | ok parser =>
      simp only []
      cases parser.Parse body with
      | error err => simp
      | ok metrics => simp [foldl_metrics]

/-- On a response with a status other than 200 the body is never closed. -/
theorem non200_never_closes (transport : Request → Except GoError Response)
    (e : Exchange V) (w : World V) (req : Request) (res : Response)
    (hreq : (prepareHttpClient e).2 = .ok req) (hdo : transport req = .ok res)
    (hstatus : res.StatusCode ≠ 200) :
    (Gather transport e w).2.1.closes = w.closes := by
  rw [prepareHttpClient_eq] at hreq
  simp only [Except.ok.injEq] at hreq
  subst hreq
  simp only [Gather, makeApiRequest, prepareHttpClient_eq, hdo, hstatus, ne_eq,
    not_false_eq_true, if_true]

/-- C9: the API key is attached only as the value of the `apikey` header.  The request
has the method `GET`, the URL `fullApiLink` and a header with the single entry
`Apikey` holding the configured key; for any other key the receiver keeps the same
`fullApiLink`, and the request is the same request with only that header value
replaced, so the URL does not depend on the key. -/
theorem apikey_only_in_header (e : Exchange V) (key : GoString) :
    (prepareHttpClient { e with APIKey := key }).1.fullApiLink
        = (prepareHttpClient e).1.fullApiLink
      ∧ ∃ req req2, (prepareHttpClient e).2 = .ok req
          ∧ (prepareHttpClient { e with APIKey := key }).2 = .ok req2
          ∧ req2.URL = req.URL
          ∧ req.URL = (prepareHttpClient e).1.fullApiLink
          ∧ req.Header.Get (str "apikey") = e.APIKey
          ∧ req2.Header.Get (str "apikey") = key
          ∧ req.Method = str "GET"
          ∧ req.Header = [(CanonicalMIMEHeaderKey (str "apikey"), [e.APIKey])]
          ∧ req2 = { req with Header := [(CanonicalMIMEHeaderKey (str "apikey"), [key])] }
          ∧ (prepareHttpClient { e with APIKey := key }).1
              = { (prepareHttpClient e).1 with APIKey := key } := by
  have hk : CanonicalMIMEHeaderKey (str "apikey") = str "Apikey" := by decide
  refine ⟨by simp only [prepareHttpClient_eq],
    { Method := str "GET", URL := apiLink e.BaseCurrency e.TargetCurrencies,
      Header := [(str "Apikey", [e.APIKey])] },
    { Method := str "GET", URL := apiLink e.BaseCurrency e.TargetCurrencies,
      Header := [(str "Apikey", [key])] },
    by rw [prepareHttpClient_eq], by rw [prepareHttpClient_eq], rfl,
    by rw [prepareHttpClient_eq], ?_, ?_, rfl, by rw [hk], by rw [hk],
    by simp only [prepareHttpClient_eq]⟩
  · simp [Header.Get, hk, Values.Get, Values.lookup]
  · simp [Header.Get, hk, Values.Get, Values.lookup]

theorem emitField_of_contains (w : World V) (k : GoString) (v : V)
    (h : Contains k (str "quotes") = true) :
    (emitField w { Key := k, Value := v }).writes
      = w.writes ++ [pointOf { Key := k, Value := v }] := by
  simp [emitField, h, pointOf]

theorem hasPrefix_split (s p : GoString) (h : HasPrefix s p = true) :
    s = p ++ s.drop p.length := by
  induction p generalizing s with
  | nil => simp
  | cons x xs ih =>
    cases s with
    | nil => simp [HasPrefix] at h
    | cons c cs =>
      simp only [HasPrefix, Bool.and_eq_true, beq_iff_eq] at h
      have := ih cs h.2
      simp only [List.length_cons, List.drop_succ_cons, List.cons_append, h.1]
      rw [← this]

theorem replace_at_index (k : GoString) (i : Nat)
    (h : indexNat (str "quotes_") k = some i) :
    Replace k (str "quotes_") (str "") (-1)
      = k.take i ++ Replace (k.drop (i + (str "quotes_").length)) (str "quotes_") (str "") (-1) := by
  induction k generalizing i with
  | nil =>
    have : str "quotes_" ≠ [] := by decide
    simp [indexNat, this] at h
  | cons c cs ih =>
    rw [indexNat] at h
    split_ifs at h with hp
    · simp only [Option.some.injEq] at h
      subst h
      have hs := hasPrefix_split _ _ hp
      rw [List.take_zero, List.nil_append, Nat.zero_add]
      conv_lhs => rw [hs]
      exact replace_head _
    · simp only [Bool.not_eq_true] at hp
      cases hj : indexNat (str "quotes_") cs with
      | none => simp [hj] at h
      | some j =>
        simp only [hj, Option.map_some', Option.some.injEq] at h
        subst h
        rw [replace_cons c cs hp, ih j hj]
        have e : j + 1 + (str "quotes_").length = (j + (str "quotes_").length) + 1 := by omega
        rw [e, List.drop_succ_cons, List.take_succ_cons, List.cons_append]

theorem replaceScan_length_le (old : GoString) (skip : Nat) (s : GoString) :
    (replaceScan old [] none skip s).length ≤ s.length := by
  induction s generalizing skip with
  | nil => simp [replaceScan]
  | cons c cs ih =>
    cases skip with
    | succ n =>
      rw [replaceScan]
      exact Nat.le_succ_of_le (ih n)
    | zero =>
      rw [replaceScan]
      split_ifs
      · simp only [List.nil_append, Option.map_none', List.length_cons]
        exact Nat.le_succ_of_le (ih _)
      · simp only [List.length_cons]
        exact Nat.succ_le_succ (ih 0)

theorem replace_length_lt (k : GoString) (h : Contains k (str "quotes_") = true) :
    (Replace k (str "quotes_") (str "") (-1)).length < k.length := by
  have hi : ∃ i, indexNat (str "quotes_") k = some i := by
    cases hk : indexNat (str "quotes_") k with
    | none => rw [(contains_false_iff _ _).2 hk] at h; cases h
    | some i => exact ⟨i, rfl⟩
  obtain ⟨i, hi⟩ := hi
  clear h
  rw [replace_eq_scan]
  induction k generalizing i with
  | nil =>
    have : str "quotes_" ≠ [] := by decide
    simp [indexNat, this] at hi
  | cons c cs ih =>
    rw [indexNat] at hi
    rw [replaceScan]
    split_ifs at hi with hp
    · simp only [hp, ne_eq, reduceCtorEq, not_false_eq_true, and_self, if_true,
        List.nil_append, Option.map_none', List.length_cons]
      exact Nat.lt_succ_of_le (replaceScan_length_le _ _ _)
    · cases hj : indexNat (str "quotes_") cs with
      | none => simp [hj] at hi
      | some j =>
        simp only [hp, and_false, if_false, List.length_cons]
        exact Nat.succ_lt_succ (ih j hj)

theorem index_eq_natCast (s sub : GoString) (i : Nat) (h : Index s sub = (i : Int)) :
    indexNat sub s = some i := by
  unfold Index at h
  cases hk : indexNat sub s with
  | none => rw [hk] at h; simp only at h; omega
  | some j => rw [hk] at h; simp only at h; congr 1; omega

theorem replace_strip (k : GoString) :
    Replace k (str "quotes_") (str "") (-1)
      = Replace (stripPrefix k (str "quotes_")) (str "quotes_") (str "") (-1) := by
  unfold stripPrefix
  split_ifs with hp
  · conv_lhs => rw [hasPrefix_split _ _ hp]
    exact replace_head _
  · rfl

theorem replace_eq_strip_iff (k : GoString) :
    Replace k (str "quotes_") (str "") (-1) = stripPrefix k (str "quotes_")
      ↔ Contains (stripPrefix k (str "quotes_")) (str "quotes_") = false := by
  have hrep : Replace k (str "quotes_") (str "") (-1)
      = Replace (stripPrefix k (str "quotes_")) (str "quotes_") (str "") (-1) := by
    unfold stripPrefix
    split_ifs with hp
    · conv_lhs => rw [hasPrefix_split _ _ hp]
      exact replace_head _
    · rfl
  rw [hrep]
  constructor
  · intro h
    by_contra hc
    simp only [Bool.not_eq_false] at hc
    have := replace_length_lt _ hc
    rw [h] at this
    exact Nat.lt_irrefl _ this
  · intro h
    exact replace_absent _ h

/-- C6: the key transform is `strings.Replace(key, "quotes_", "", -1)`, a function of
the key alone with exact string-replace semantics: `quotes_EUR_rate` becomes `EUR_rate`;
`aquotesb` is emitted with its key unchanged, as is every key without `quotes_`; a key
whose first instance of `quotes_` is at index `i` becomes the bytes before `i` followed
by the transform of what follows the instance; and the removal is one pass over the
key (`quotequotes_s_` becomes `quotes_`). -/
theorem transform_exact_replace :
    Replace (str "quotes_EUR_rate") (str "quotes_") (str "") (-1) = str "EUR_rate"
      ∧ (∀ (w : World V) (v : V),
          (emitField w { Key := str "aquotesb", Value := v }).writes
            = w.writes ++ [{ measurement := str "aquotesb",
                             fields := [(str "aquotesb", v)], tags := none }])
      ∧ (∀ (w : World V) (k : GoString) (v : V), Contains k (str "quotes") = true →
          (emitField w { Key := k, Value := v }).writes
            = w.writes ++ [{ measurement := Replace k (str "quotes_") (str "") (-1),
                             fields := [(Replace k (str "quotes_") (str "") (-1), v)],
                             tags := none }])
      ∧ (∀ k : GoString, Contains k (str "quotes_") = false →
          Replace k (str "quotes_") (str "") (-1) = k)
      ∧ (∀ (k : GoString) (i : Nat), Index k (str "quotes_") = (i : Int) →
          Replace k (str "quotes_") (str "") (-1)
            = k.take i ++ Replace (k.drop (i + 7)) (str "quotes_") (str "") (-1))
      ∧ Replace (str "quotequotes_s_") (str "quotes_") (str "") (-1) = str "quotes_" := by
  have key : ∀ (w : World V) (k : GoString) (v : V), Contains k (str "quotes") = true →
      (emitField w { Key := k, Value := v }).writes
        = w.writes ++ [{ measurement := Replace k (str "quotes_") (str "") (-1),
                         fields := [(Replace k (str "quotes_") (str "") (-1), v)],
                         tags := none }] := by
    intro w k v h
    rw [emitField_of_contains w k v h, pointOf]
  have hlen : (str "quotes_").length = 7 := by decide
  refine ⟨by decide, ?_, key, replace_absent, ?_, by decide⟩
  · intro w v
    rw [key w _ v (by decide), replace_absent _ (by decide)]
  · intro k i h
    have := replace_at_index k i (index_eq_natCast _ _ _ h)
    rwa [hlen] at this

/-- C6 at concrete keys. -/
theorem transform_exact_replace_witness :
    (emitField emptyWorld { Key := str "xquotes_y", Value := "1" }).writes
        = [{ measurement := str "xy", fields := [(str "xy", "1")], tags := none }]
      ∧ Replace (str "aquotesb") (str "quotes_") (str "") (-1) = str "aquotesb"
      ∧ Replace (str "xquotes_yquotes_z") (str "quotes_") (str "") (-1)
        = str "x" ++ Replace (str "yquotes_z") (str "quotes_") (str "") (-1) :=
  ⟨((@transform_exact_replace String).2.2.1 emptyWorld (str "xquotes_y") "1"
      (by decide)).trans (by decide),
    (@transform_exact_replace String).2.2.2.1 (str "aquotesb") (by decide),
    (@transform_exact_replace String).2.2.2.2.1 (str "xquotes_yquotes_z") 1 (by decide)⟩

/-- C10, counterexample: for the key `quotes_a_quotes_b` the emitted point is named
`a_b`, while stripping the leading `quotes_` gives `a_quotes_b`. -/
theorem emitted_name_not_prefix_strip :
    Contains (str "quotes_a_quotes_b") (str "quotes") = true
      ∧ (emitField emptyWorld { Key := str "quotes_a_quotes_b", Value := "1" }).writes
          = [{ measurement := str "a_b", fields := [(str "a_b", "1")], tags := none }]
      ∧ stripPrefix (str "quotes_a_quotes_b") (str "quotes_") = str "a_quotes_b"
      ∧ (emitField emptyWorld { Key := str "quotes_a_quotes_b", Value := "1" }).writes
          ≠ [{ measurement := stripPrefix (str "quotes_a_quotes_b") (str "quotes_"),
               fields := [(stripPrefix (str "quotes_a_quotes_b") (str "quotes_"), "1")],
               tags := none }] := by
  decide

/-- C10, amended: for a field key that contains `quotes`, the emitted point name and
field key are the key with a leading `quotes_` stripped and every instance of `quotes_`
in the remainder removed as well.  That is the prefix-stripped key, remainder exactly
as it was, if and only if `quotes_` does not occur in the remainder; when it does, with
the first instance at index `i`, the name is the remainder up to `i` followed by the
transform of what follows the instance, and is shorter than the remainder. -/
theorem emitted_name_prefix_strip (w : World V) (k : GoString) (v : V)
    (hq : Contains k (str "quotes") = true) :
    (emitField w { Key := k, Value := v }).writes
        = w.writes ++
            [{ measurement := Replace (stripPrefix k (str "quotes_")) (str "quotes_") (str "") (-1),
               fields := [(Replace (stripPrefix k (str "quotes_")) (str "quotes_") (str "") (-1), v)],
               tags := none }]
      ∧ ((emitField w { Key := k, Value := v }).writes
            = w.writes ++ [{ measurement := stripPrefix k (str "quotes_"),
                             fields := [(stripPrefix k (str "quotes_"), v)], tags := none }]
          ↔ Contains (stripPrefix k (str "quotes_")) (str "quotes_") = false)
      ∧ (∀ i : Nat, Index (stripPrefix k (str "quotes_")) (str "quotes_") = (i : Int) →
          Replace (stripPrefix k (str "quotes_")) (str "quotes_") (str "") (-1)
            = (stripPrefix k (str "quotes_")).take i
                ++ Replace ((stripPrefix k (str "quotes_")).drop (i + 7))
                    (str "quotes_") (str "") (-1))
      ∧ (Contains (stripPrefix k (str "quotes_")) (str "quotes_") = true →
          (Replace (stripPrefix k (str "quotes_")) (str "quotes_") (str "") (-1)).length
            < (stripPrefix k (str "quotes_")).length) := by
  have hlen : (str "quotes_").length = 7 := by decide
  refine ⟨?_, ?_, ?_, replace_length_lt _⟩
  · rw [emitField_of_contains w k v hq, pointOf]
    simp only [← replace_strip]
  · rw [emitField_of_contains w k v hq, pointOf, ← replace_eq_strip_iff]
    constructor
    · intro h
      have h2 := List.append_cancel_left h
      simp only [List.cons.injEq, Point.mk.injEq, and_true] at h2
      exact h2.1
    · intro h
      simp only [h]
  · intro i h
    have := replace_at_index _ i (index_eq_natCast _ _ _ h)
    rwa [hlen] at this

/-- C10, amended, at the keys `quotes_EUR_rate` and `quotes_a_quotes_b`. -/
theorem emitted_name_prefix_strip_witness :
    Contains (str "quotes_EUR_rate") (str "quotes") = true
      ∧ (emitField emptyWorld { Key := str "quotes_EUR_rate", Value := "0.9" }).writes
          = [{ measurement := str "EUR_rate", fields := [(str "EUR_rate", "0.9")],
               tags := none }]
      ∧ Contains (str "quotes_a_quotes_b") (str "quotes") = true
      ∧ (emitField emptyWorld { Key := str "quotes_a_quotes_b", Value := "1" }).writes
          = [{ measurement := str "a_b", fields := [(str "a_b", "1")], tags := none }] :=
  ⟨by decide,
    ((emitted_name_prefix_strip emptyWorld (str "quotes_EUR_rate") "0.9" (by decide)).2.1.2
      (by decide)).trans (by decide),
    by decide,
    (emitted_name_prefix_strip emptyWorld (str "quotes_a_quotes_b") "1" (by decide)).1.trans
      (by decide)⟩

end ExchangePlugin
